import Mathlib

/-!
Verification of the VLSI_CAD netlist parser, leveler and simulator
(`parser.py`, `simulation.py`) against its specification.

The Python sources are shallowly embedded: text is a `List Char`,
Python `str` fields become `String`, Python dicts become association
lists with insert-or-update semantics, exceptions become `Option`
(`none` = the function raised), and the unbounded `while` loop of
`assign_levels` becomes a fuel-indexed recursion whose fuel
`gates.length` is provably sufficient (each iteration of the loop
either levels at least one gate or raises, so it runs at most
`gates.length` rounds; `assignLevelsFuel_stable` shows any larger
fuel computes the same result).
-/

/-- Embedding of the dataclass `Gate` from parser.py (lines 7-15):
gtype, optional instance name, output signal, ordered input signals,
and the mutable fields with their dataclass defaults. -/
structure Gate where
  gtype : String
  name : Option String
  output : String
  inputs : List String
  value_inp : List (Option Nat) := []
  value_out : Option Nat := none
  level : Option Nat := none
deriving DecidableEq, Repr

/-- Embedding of the dataclass `Netlist` from parser.py (lines 17-22). -/
structure Netlist where
  inputs : List String
  outputs : List String
  wires : List String
  gates : List Gate
deriving DecidableEq, Repr

/-- Character class `[A-Za-z_]` (an identifier's first character). -/
def isIdentStart (c : Char) : Bool :=
  (decide ('A' ≤ c) && decide (c ≤ 'Z')) || (decide ('a' ≤ c) && decide (c ≤ 'z')) || decide (c = '_')

/-- Character class `[A-Za-z0-9_]` (an identifier's continuation characters,
also the class of the instance-name group `[A-Za-z0-9_]+`). -/
def isWordChar (c : Char) : Bool :=
  isIdentStart c || (decide ('0' ≤ c) && decide (c ≤ '9'))

/-- The regex class `\s` and the character set stripped by `str.strip()`,
restricted to its ASCII members (space, tab, newline, carriage return,
vertical tab, form feed). -/
def isSpaceChar (c : Char) : Bool :=
  decide (c = ' ') || decide (c = '\t') || decide (c = '\n') || decide (c = '\r') ||
    decide (c = Char.ofNat 11) || decide (c = Char.ofNat 12)

/-- First substitution of `remove_comments` (parser.py line 25):
`re.sub(r'//.*', '', text)` deletes from each `//` to the end of the
line, keeping the newline. The flag is `true` while inside a line
comment. -/
def removeLineCommentsAux : Bool → List Char → List Char
  | _, [] => []
  | true, '\n' :: rest => '\n' :: removeLineCommentsAux false rest
  | true, _ :: rest => removeLineCommentsAux true rest
  | false, '/' :: '/' :: rest => removeLineCommentsAux true rest
  | false, c :: rest => c :: removeLineCommentsAux false rest

/-- Second substitution of `remove_comments` (parser.py line 26):
`re.sub(r'/\*.*?\*/', '', text, flags=re.S)` deletes each `/*` together
with everything up to the first following `*/`; a `/*` with no closing
`*/` matches nothing and is kept verbatim. The accumulator holds, in
reverse, the characters tentatively skipped since the pending `/*`;
they are flushed back if the input ends before a `*/` is found. -/
def removeBlockCommentsAux : List Char → List Char → List Char
  | acc, [] => acc.reverse
  | [], '/' :: '*' :: rest => removeBlockCommentsAux ['*', '/'] rest
  | [], c :: rest => c :: removeBlockCommentsAux [] rest
  | _ :: _, '*' :: '/' :: rest => removeBlockCommentsAux [] rest
  | a :: as, c :: rest => removeBlockCommentsAux (c :: a :: as) rest

/-- Embedding of `remove_comments` (parser.py lines 24-27): line comments are removed
first, then block comments. -/
def removeComments (text : List Char) : List Char :=
  removeBlockCommentsAux [] (removeLineCommentsAux false text)

/-- Python's `text.split(';')`. -/
def splitOnSemi : List Char → List (List Char)
  | [] => [[]]
  | c :: rest =>
    if c = ';' then [] :: splitOnSemi rest
    else
      match splitOnSemi rest with
      | [] => [[c]]
      | s :: ss => (c :: s) :: ss

/-- Python's `str.strip()` (ASCII whitespace). -/
def stripChars (s : List Char) : List Char :=
  ((s.dropWhile isSpaceChar).reverse.dropWhile isSpaceChar).reverse

/-- Statement extraction of parser.py line 43:
`[stmt.strip() for stmt in text.split(';') if stmt.strip()]`. -/
def statementsOf (text : List Char) : List (List Char) :=
  ((splitOnSemi text).map stripChars).filter (fun s => !s.isEmpty)

/-- Embedding of `find_identifiers` (parser.py lines 29-30):
`re.findall(r"[A-Za-z_][A-Za-z0-9_]*", s)`. `findall` scans left to
right and at each identifier-start character takes the maximal run of
word characters; the first argument holds, in reverse, the token being
accumulated. -/
def findIdentifiersAux : Option (List Char) → List Char → List (List Char)
  | none, [] => []
  | some tok, [] => [tok.reverse]
  | none, c :: rest =>
    if isIdentStart c then findIdentifiersAux (some [c]) rest
    else findIdentifiersAux none rest
  | some tok, c :: rest =>
    if isWordChar c then findIdentifiersAux (some (c :: tok)) rest
    else tok.reverse :: findIdentifiersAux none rest

/-- The identifiers of `find_identifiers` as a list of `String`s. -/
def findIdentifiers (s : List Char) : List String :=
  (findIdentifiersAux none s).map (fun t => String.mk t)

/-- Case-insensitive literal prefix match (the keyword alternation of
`^(input|output|wire)` under `re.I`); returns the remainder after the
keyword. -/
def matchKeywordCI : List Char → List Char → Option (List Char)
  | [], rest => some rest
  | _ :: _, [] => none
  | k :: ks, c :: cs => if c.toLower = k then matchKeywordCI ks cs else none

/-- The word boundary `\b` placed after a keyword: the next character,
if any, is not a word character. -/
def boundaryAfterKw : List Char → Bool
  | [] => true
  | c :: _ => !isWordChar c

/-- One branch of the declaration regex
`re.match(r'^(input|output|wire)\b(.*)$', stmt, re.I)` (parser.py
line 49). Without `re.S`, `.` does not match a newline and `$` only
matches at the end of the (already stripped, hence not
newline-terminated) statement, so the match additionally requires the
remainder after the keyword to be free of newlines. -/
def matchDeclKw (kw : String) (s : List Char) : Option (List Char) :=
  match matchKeywordCI kw.toList s with
  | none => none
  | some rest =>
    if boundaryAfterKw rest && !rest.contains '\n' then some rest else none

/-- The full declaration matcher: the alternation tries `input`,
`output`, `wire` in order; it returns the lowercased keyword (the
`kind = m.group(1).lower()` of parser.py line 51) and the remainder. -/
def matchDecl (s : List Char) : Option (String × List Char) :=
  match matchDeclKw "input" s with
  | some rest => some ("input", rest)
  | none =>
    match matchDeclKw "output" s with
    | some rest => some ("output", rest)
    | none =>
      match matchDeclKw "wire" s with
      | some rest => some ("wire", rest)
      | none => none

/-- The named-gate regex
`re.match(r'^([A-Za-z_][A-Za-z0-9_]*)\s+([A-Za-z0-9_]+)\s*\((.*)\)$', stmt, re.S)`
(parser.py line 61). Because each quantified piece is followed by a
piece that cannot match the same characters, the greedy backtracking
search is equivalent to this deterministic maximal-run scan: group 1 is
the maximal word run (starting with `[A-Za-z_]`), then at least one
whitespace character, group 2 is the next maximal (possibly
digit-led) word run, then optional whitespace, a literal `(`, and with
`re.S` the rest must end in `)` with group 3 everything in between.
Returns (group 1, group 2, group 3). -/
def matchNamedGate (s : List Char) : Option (List Char × List Char × List Char) :=
  match s with
  | [] => none
  | c :: rest =>
    if isIdentStart c then
      let afterT := rest.dropWhile isWordChar
      if afterT.takeWhile isSpaceChar = [] then none
      else
        let afterSp := afterT.dropWhile isSpaceChar
        let n := afterSp.takeWhile isWordChar
        if n = [] then none
        else
          match (afterSp.dropWhile isWordChar).dropWhile isSpaceChar with
          | '(' :: r =>
            match r.getLast? with
            | some ')' => some (c :: rest.takeWhile isWordChar, n, r.dropLast)
            | _ => none
          | _ => none
    else none

/-- The anonymous-gate regex
`re.match(r'^([A-Za-z_][A-Za-z0-9_]*)\s*\((.*)\)$', stmt, re.S)`
(parser.py line 69), by the same deterministic reading.
Returns (group 1, group 2). -/
def matchAnonGate (s : List Char) : Option (List Char × List Char) :=
  match s with
  | [] => none
  | c :: rest =>
    if isIdentStart c then
      match (rest.dropWhile isWordChar).dropWhile isSpaceChar with
      | '(' :: r =>
        match r.getLast? with
        | some ')' => some (c :: rest.takeWhile isWordChar, r.dropLast)
        | _ => none
      | _ => none
    else none

/-- Python's `stmt.startswith('module') or stmt.startswith('endmodule')`
(parser.py line 47). -/
def startsWithModuleKw (s : List Char) : Bool :=
  List.isPrefixOf "module".toList s || List.isPrefixOf "endmodule".toList s

/-- Result of classifying one statement (the body of the `for` loop of
`parse_netlist_text`, parser.py lines 46-75): a declaration
contributing identifiers to one of the three name lists, a gate
instance, or nothing. -/
inductive StmtClass where
  | skipped : StmtClass
  | decl : String → List String → StmtClass
  | gateInst : Gate → StmtClass
deriving DecidableEq, Repr

/-- Classify one statement exactly as the loop body of
`parse_netlist_text` does: module header/footer lines are skipped,
then the declaration regex is tried, then the named-gate regex (a
match with an empty identifier list contributes nothing but still
consumes the statement), then the anonymous-gate regex; anything else
is ignored. -/
def classifyStmt (st : List Char) : StmtClass :=
  if startsWithModuleKw st then .skipped
  else
    match matchDecl st with
    | some (kind, rest) => .decl kind (findIdentifiers rest)
    | none =>
      match matchNamedGate st with
      | some (t, n, inner) =>
        match findIdentifiers inner with
        | [] => .skipped
        | out :: ins =>
          .gateInst { gtype := String.mk (t.map Char.toLower), name := some (String.mk n),
                      output := out, inputs := ins }
      | none =>
        match matchAnonGate st with
        | some (t, inner) =>
          match findIdentifiers inner with
          | [] => .skipped
          | out :: ins =>
            .gateInst { gtype := String.mk (t.map Char.toLower), name := none,
                        output := out, inputs := ins }
        | none => .skipped

/-- Gates contributed by one statement (zero or one). -/
def stmtGates (st : List Char) : List Gate :=
  match classifyStmt st with
  | .gateInst g => [g]
  | _ => []

/-- Names contributed by one statement to the declaration list of the
given kind (`inputs += ids` etc., parser.py lines 54-59). -/
def stmtDecls (kind : String) (st : List Char) : List String :=
  match classifyStmt st with
  | .decl k ids => if k = kind then ids else []
  | _ => []

/-- Embedding of `unique_preserve` (parser.py lines 32-39): keep the first
occurrence of each name; `seen` is the set already emitted. -/
def uniquePreserve (seen : List String) : List String → List String
  | [] => []
  | x :: xs =>
    if x ∈ seen then uniquePreserve seen xs
    else x :: uniquePreserve (x :: seen) xs

/-- Embedding of `parse_netlist_text` (parser.py lines 41-76): remove comments,
split into statements, accumulate the per-statement contributions in
order, and deduplicate the three name lists. -/
def parseNetlistText (text : List Char) : Netlist :=
  { inputs := uniquePreserve [] ((statementsOf (removeComments text)).flatMap (stmtDecls "input")),
    outputs := uniquePreserve [] ((statementsOf (removeComments text)).flatMap (stmtDecls "output")),
    wires := uniquePreserve [] ((statementsOf (removeComments text)).flatMap (stmtDecls "wire")),
    gates := (statementsOf (removeComments text)).flatMap stmtGates }

/-- The readiness test of `assign_levels` (parser.py line 99):
`all(inp in known_signals for inp in gate.inputs)`. -/
def readyB (known : List String) (g : Gate) : Bool :=
  g.inputs.all (fun i => known.contains i)

/-- The gates levelled in the current round (parser.py lines 98-101):
the not-yet-processed gates whose inputs are all known, in declaration
order. -/
def currentOf (known : List String) (rem : List Gate) : List Gate :=
  rem.filter (readyB known)

/-- The gates left for the next round (parser.py line 106):
`[g for g in remaining_gates if g.level is None]` taken after the
current round's gates were assigned a level, so a gate survives iff it
was not ready this round and its `level` field is still `None`. -/
def restOf (known : List String) (rem : List Gate) : List Gate :=
  rem.filter (fun g => !readyB known g && decide (g.level = none))

/-- The `while remaining_gates:` loop of `assign_levels` (parser.py
lines 96-107), with the level each gate receives recorded as an
association list in assignment order. `none` is the
`ValueError("Cannot resolve remaining gates ...")` of line 103. The
loop levels at least one gate per round or raises, so `fuel =
remaining.length` always suffices (`assignLevelsFuel_stable`); the
`fuel = 0` branch with gates remaining is unreachable from
`assignLevels`. -/
def assignLevelsFuel : Nat → List String → List Gate → Nat → Option (List (Gate × Nat))
  | _, _, [], _ => some []
  | 0, _, _ :: _, _ => none
  | fuel + 1, known, g :: gs, levelNum =>
    if currentOf known (g :: gs) = [] then none
    else
      match assignLevelsFuel fuel (known ++ (currentOf known (g :: gs)).map (fun x => x.output))
          (restOf known (g :: gs)) (levelNum + 1) with
      | none => none
      | some tail => some ((currentOf known (g :: gs)).map (fun x => (x, levelNum)) ++ tail)

/-- Embedding of `assign_levels` (parser.py lines 91-107) as the level assignment it
produces: `known_signals` starts as the primary inputs and `level_num`
as 1. -/
def assignLevels (nl : Netlist) : Option (List (Gate × Nat)) :=
  assignLevelsFuel nl.gates.length nl.inputs nl.gates 1

/-- The effect of the in-place mutation `gate.level = level_num` on one
gate: a gate that appears in the assignment gets its recorded level,
any other gate is untouched. -/
def applyAssignment (asg : List (Gate × Nat)) (g : Gate) : Gate :=
  match asg.find? (fun p => decide (p.1 = g)) with
  | some p => { g with level := some p.2 }
  | none => g

/-- The netlist as left by a successful run of `assign_levels`
(which mutates `gate.level` in place and returns nothing):
every gate carries the level the run gave it. -/
def levelNetlist (nl : Netlist) : Option Netlist :=
  match assignLevels nl with
  | none => none
  | some asg => some { nl with gates := nl.gates.map (applyAssignment asg) }

/-- Python `dict.get(key, None)` on a dict modelled as an association
list in insertion order. -/
def dictGet (sv : List (String × Nat)) (k : String) : Option Nat :=
  (sv.find? (fun p => p.1 == k)).map (fun p => p.2)

/-- Python `d[key] = v`: update in place if the key is present
(keeping its position), else append. -/
def dictInsert (sv : List (String × Nat)) (k : String) (v : Nat) : List (String × Nat) :=
  if sv.any (fun p => p.1 == k) then sv.map (fun p => if p.1 == k then (k, v) else p)
  else sv ++ [(k, v)]

/-- The input-value lookup of `evaluate_gate` (simulation.py lines
5-7): `[signal_values.get(inp, None) for inp in gate.inputs]` followed
by the `None in inputs` check; `none` is the
`ValueError("Missing input signal value ...")`. -/
def resolveInputs (sv : List (String × Nat)) : List String → Option (List Nat)
  | [] => some []
  | n :: ns =>
    match dictGet sv n with
    | none => none
    | some v =>
      match resolveInputs sv ns with
      | none => none
      | some vs => some (v :: vs)

/-- Embedding of `evaluate_gate` (simulation.py lines 4-34). Python truthiness of an
int is `≠ 0`; `not` reads `inputs[0]` and raises `IndexError` on an
empty list; an unknown gate type raises `NotImplementedError` (both
modelled as `none`). -/
def evaluateGate (g : Gate) (sv : List (String × Nat)) : Option Nat :=
  match resolveInputs sv g.inputs with
  | none => none
  | some vals =>
    if g.gtype = "nand" then some (if vals.all (fun v => v != 0) then 0 else 1)
    else if g.gtype = "and" then some (if vals.all (fun v => v != 0) then 1 else 0)
    else if g.gtype = "or" then some (if vals.any (fun v => v != 0) then 1 else 0)
    else if g.gtype = "nor" then some (if vals.any (fun v => v != 0) then 0 else 1)
    else if g.gtype = "xor" then some (vals.sum % 2)
    else if g.gtype = "not" then
      match vals with
      | [] => none
      | v :: _ => some (if v != 0 then 0 else 1)
    else none

/-- The inner loop of `simulate` (simulation.py lines 48-50): evaluate
the given gates in order, recording each output value in the signal
map. -/
def evalGateList : List Gate → List (String × Nat) → Option (List (String × Nat))
  | [], sv => some sv
  | g :: gs, sv =>
    match evaluateGate g sv with
    | none => none
    | some v => evalGateList gs (dictInsert sv g.output v)

/-- The outer loop `for lvl in range(1, max_level + 1)` of `simulate`
(simulation.py line 47): `count` is the number of levels still to
process, `lvl` the current level; `gates_by_level.get(lvl, [])` is the
declaration-ordered sublist of gates at that level. -/
def simLevelsFrom (gates : List Gate) (sv : List (String × Nat)) (lvl : Nat) :
    Nat → Option (List (String × Nat))
  | 0 => some sv
  | count + 1 =>
    match evalGateList (gates.filter (fun g => decide (g.level = some lvl))) sv with
    | none => none
    | some sv2 => simLevelsFrom gates sv2 (lvl + 1) count

/-- Embedding of `max(gates_by_level.keys())` (simulation.py line 45): raises
`ValueError` on a netlist with no gates, and a `TypeError` whenever any
gate's level is `None` (either when comparing `None` with an int, or
later at `max_level + 1` when every key is `None`); both are modelled
as `none`. -/
def maxGateLevel : List Gate → Option Nat
  | [] => none
  | g :: gs =>
    match g.level with
    | none => none
    | some l =>
      match gs with
      | [] => some l
      | g2 :: gs2 =>
        match maxGateLevel (g2 :: gs2) with
        | none => none
        | some m => some (max l m)

/-- Embedding of `simulate` (simulation.py lines 36-53): seed the signal map with
the given input values, process the gates level by level, and read off
the declared outputs with `signal_values.get(out, None)` — an output
never recorded maps to the non-numeric `none`. -/
def simulate (nl : Netlist) (inputValues : List (String × Nat)) :
    Option (List (String × Option Nat)) :=
  match maxGateLevel nl.gates with
  | none => none
  | some maxLevel =>
    match simLevelsFrom nl.gates inputValues 1 maxLevel with
    | none => none
    | some sv => some (nl.outputs.map (fun o => (o, dictGet sv o)))

/-- The source text of the `c17_example` fixture shared by parser.py
(lines 110-123) and simulation.py (lines 72-85). -/
def c17Text : List Char :=
  ("\nmodule c17 (N1, N2, N3, N6, N7, N22, N23);\ninput N1, N2, N3, N6, N7;\noutput N22, N23;\nwire N10, N11, N16, N19;\n\nnand NAND2_1 (N10, N1, N3);\nnand NAND2_2 (N11, N3, N6);\nnand NAND2_3 (N16, N2, N11);\nnand NAND2_4 (N19, N11, N7);\nnand NAND2_5 (N22, N10, N16);\nnand NAND2_6 (N23, N16, N19);\nendmodule\n").toList

/-- The parsed `c17` netlist (the example 2-level NAND network named by
the spec); `c17_parse_ok` checks it is exactly what `parseNetlistText`
produces from `c17Text`. -/
def c17 : Netlist :=
  { inputs := ["N1", "N2", "N3", "N6", "N7"],
    outputs := ["N22", "N23"],
    wires := ["N10", "N11", "N16", "N19"],
    gates := [{ gtype := "nand", name := some "NAND2_1", output := "N10", inputs := ["N1", "N3"] },
              { gtype := "nand", name := some "NAND2_2", output := "N11", inputs := ["N3", "N6"] },
              { gtype := "nand", name := some "NAND2_3", output := "N16", inputs := ["N2", "N11"] },
              { gtype := "nand", name := some "NAND2_4", output := "N19", inputs := ["N11", "N7"] },
              { gtype := "nand", name := some "NAND2_5", output := "N22", inputs := ["N10", "N16"] },
              { gtype := "nand", name := some "NAND2_6", output := "N23", inputs := ["N16", "N19"] }] }

/-- The c17 netlist after levelling: NAND2_1, NAND2_2 at level 1,
NAND2_3, NAND2_4 at level 2, NAND2_5, NAND2_6 at level 3. -/
def c17Leveled : Netlist :=
  { inputs := ["N1", "N2", "N3", "N6", "N7"],
    outputs := ["N22", "N23"],
    wires := ["N10", "N11", "N16", "N19"],
    gates := [{ gtype := "nand", name := some "NAND2_1", output := "N10", inputs := ["N1", "N3"],
                level := some 1 },
              { gtype := "nand", name := some "NAND2_2", output := "N11", inputs := ["N3", "N6"],
                level := some 1 },
              { gtype := "nand", name := some "NAND2_3", output := "N16", inputs := ["N2", "N11"],
                level := some 2 },
              { gtype := "nand", name := some "NAND2_4", output := "N19", inputs := ["N11", "N7"],
                level := some 2 },
              { gtype := "nand", name := some "NAND2_5", output := "N22", inputs := ["N10", "N16"],
                level := some 3 },
              { gtype := "nand", name := some "NAND2_6", output := "N23", inputs := ["N16", "N19"],
                level := some 3 }] }

/-- The level assignment `assign_levels` produces on `c17`. -/
def asgC17 : List (Gate × Nat) :=
  [({ gtype := "nand", name := some "NAND2_1", output := "N10", inputs := ["N1", "N3"] }, 1),
   ({ gtype := "nand", name := some "NAND2_2", output := "N11", inputs := ["N3", "N6"] }, 1),
   ({ gtype := "nand", name := some "NAND2_3", output := "N16", inputs := ["N2", "N11"] }, 2),
   ({ gtype := "nand", name := some "NAND2_4", output := "N19", inputs := ["N11", "N7"] }, 2),
   ({ gtype := "nand", name := some "NAND2_5", output := "N22", inputs := ["N10", "N16"] }, 3),
   ({ gtype := "nand", name := some "NAND2_6", output := "N23", inputs := ["N16", "N19"] }, 3)]

/-- The input assignment `N1=1, N2=0, N3=1, N6=0, N7=0` of the claimed
round-trip fixture. -/
def c17Vals : List (String × Nat) :=
  [("N1", 1), ("N2", 0), ("N3", 1), ("N6", 0), ("N7", 0)]


/-- The drivers of gate `g` recorded in a level assignment: the
assigned gates whose output feeds one of `g`'s inputs. -/
def driversOf (asg : List (Gate × Nat)) (g : Gate) : List (Gate × Nat) :=
  asg.filter (fun q => g.inputs.contains q.1.output)

/-- Maximum of a list of naturals (0 on the empty list). -/
def maxList (l : List Nat) : Nat :=
  l.foldr max 0

/-- Gate `d` drives gate `g` inside netlist `nl`: both are gates of the
netlist and `d`'s output signal is one of `g`'s inputs. -/
def drivesIn (nl : Netlist) (d g : Gate) : Prop :=
  d ∈ nl.gates ∧ g ∈ nl.gates ∧ d.output ∈ g.inputs

/-- Lookup in a simulation result dict (`output name ↦ value-or-None`). -/
def resLookup (r : List (String × Option Nat)) (k : String) : Option (Option Nat) :=
  (r.find? (fun p => p.1 == k)).map (fun p => p.2)

/-- A statement that matches one of the two gate-instantiation shapes
but whose parenthesised port list contains no identifiers (parser.py
lines 61-75: such a statement falls into the `if ids:` guard's false
branch and is dropped). -/
def gateStmtEmptyPortsB (st : List Char) : Bool :=
  match matchNamedGate st with
  | some (_, _, inner) => (findIdentifiers inner).isEmpty
  | none =>
    match matchAnonGate st with
    | some (_, inner) => (findIdentifiers inner).isEmpty
    | none => false

/-- A netlist in which gate `gColl1`'s output `a` is also a declared
primary input: `input a, b; nand G1 (a, b); nand G2 (c, a);`. -/
def gColl1 : Gate :=
  { gtype := "nand", name := some "G1", output := "a", inputs := ["b"] }

/-- The gate `nand G2 (c, a)` of the collision netlist: its input `a`
is driven by `gColl1` but is also a declared primary input. -/
def gColl2 : Gate :=
  { gtype := "nand", name := some "G2", output := "c", inputs := ["a"] }

/-- The collision netlist itself. -/
def nlColl : Netlist :=
  { inputs := ["a", "b"], outputs := [], wires := [], gates := [gColl1, gColl2] }

/-- A gate whose single input is its own output signal. -/
def gSelfInp : Gate :=
  { gtype := "nand", name := some "G", output := "x", inputs := ["x"] }

/-- A netlist whose only gate feeds back on itself while its signal
`x` is also a declared primary input. -/
def nlSelfInp : Netlist :=
  { inputs := ["x"], outputs := [], wires := [], gates := [gSelfInp] }

/-- The same self-feeding gate in a netlist with no primary inputs. -/
def nlSelf : Netlist :=
  { inputs := [], outputs := [], wires := [], gates := [gSelfInp] }

/-- A leveled netlist with a declared output `b` that no gate drives
and that is not a primary input, and no gates at all. -/
def nlUndriven : Netlist :=
  { inputs := ["a"], outputs := ["b"], wires := [], gates := [] }

/-- A leveled one-gate netlist (`not G (w, a)`) with a declared output
`b` that no gate drives and that is not a primary input. -/
def nlNotGate : Netlist :=
  { inputs := ["a"], outputs := ["b"], wires := ["w"],
    gates := [{ gtype := "not", name := some "G", output := "w", inputs := ["a"],
                level := some 1 }] }

/-- A source text in which two gate instantiations name the same
output signal `x`. -/
def dupText : List Char :=
  "input a; nand G1 (x, a); nand G2 (x, a);".toList

/-- The c17 input assignment extended with a name, `Z9`, that is not a
declared primary input. -/
def c17ValsExtra : List (String × Nat) :=
  c17Vals ++ [("Z9", 1)]

/-- The c17 input assignment with the declared primary input `N1`
missing. -/
def c17ValsMissing : List (String × Nat) :=
  [("N2", 0), ("N3", 1), ("N6", 0), ("N7", 0)]

/-- A three-input xor gate used to witness the parity claim. -/
def gXor3 : Gate :=
  { gtype := "xor", name := some "X", output := "y", inputs := ["a", "b", "c"] }

/-- A two-input `not` gate used to witness the first-input claim. -/
def gNot2 : Gate :=
  { gtype := "not", name := some "NV", output := "y", inputs := ["a", "b"] }

/-- The per-type dispatch of `evaluate_gate` on already-resolved input
values (the `if/elif` chain of simulation.py lines 10-34). -/
def gateDispatch (gtype : String) (vals : List Nat) : Option Nat :=
  if gtype = "nand" then some (if vals.all (fun v => v != 0) then 0 else 1)
  else if gtype = "and" then some (if vals.all (fun v => v != 0) then 1 else 0)
  else if gtype = "or" then some (if vals.any (fun v => v != 0) then 1 else 0)
  else if gtype = "nor" then some (if vals.any (fun v => v != 0) then 0 else 1)
  else if gtype = "xor" then some (vals.sum % 2)
  else if gtype = "not" then
    match vals with
    | [] => none
    | v :: _ => some (if v != 0 then 0 else 1)
  else none

/-- Sanity check tying the three c17 fixtures to the source text: the
parser yields exactly `c17`, and levelling it yields `c17Leveled` with
the assignment `asgC17`. -/
theorem c17_fixtures_ok :
    parseNetlistText c17Text = c17 ∧ assignLevels c17 = some asgC17 ∧
      levelNetlist c17 = some c17Leveled := by
  refine ⟨by decide, by decide, by decide⟩

/-- Readiness unfolded to membership. -/
theorem readyB_iff (known : List String) (g : Gate) :
    readyB known g = true ↔ ∀ i ∈ g.inputs, i ∈ known := by
  simp [readyB, List.all_eq_true]

/-- Membership in a round's levelled gates. -/
theorem mem_currentOf {known : List String} {rem : List Gate} {x : Gate} :
    x ∈ currentOf known rem ↔ x ∈ rem ∧ readyB known x = true := by
  simp [currentOf, List.mem_filter]

/-- Membership in the gates carried to the next round. -/
theorem mem_restOf {known : List String} {rem : List Gate} {x : Gate} :
    x ∈ restOf known rem ↔ x ∈ rem ∧ readyB known x = false ∧ x.level = none := by
  simp [restOf, List.mem_filter]

/-- Levelling an empty remainder succeeds immediately with no
assignments, whatever the fuel. -/
theorem alf_nil (fuel : Nat) (known : List String) (lvl : Nat) :
    assignLevelsFuel fuel known [] lvl = some [] := by
  cases fuel <;> rfl

/-- Zero fuel with gates remaining (unreachable from `assignLevels`). -/
theorem alf_zero (known : List String) (g : Gate) (gs : List Gate) (lvl : Nat) :
    assignLevelsFuel 0 known (g :: gs) lvl = none := rfl

/-- One unfolding of the levelling loop. -/
theorem alf_succ (fuel : Nat) (known : List String) (g : Gate) (gs : List Gate) (lvl : Nat) :
    assignLevelsFuel (fuel + 1) known (g :: gs) lvl =
      if currentOf known (g :: gs) = [] then none
      else
        match assignLevelsFuel fuel (known ++ (currentOf known (g :: gs)).map (fun x => x.output))
            (restOf known (g :: gs)) (lvl + 1) with
        | none => none
        | some tail => some ((currentOf known (g :: gs)).map (fun x => (x, lvl)) ++ tail) := rfl

/-- Inversion of a successful round: the round levelled at least one
gate, the recursive call succeeded, and the result is the current
round's pairs followed by the later rounds' pairs. -/
theorem alf_succ_inv (fuel : Nat) (known : List String) (g : Gate) (gs : List Gate) (lvl : Nat)
    (asg : List (Gate × Nat))
    (h : assignLevelsFuel (fuel + 1) known (g :: gs) lvl = some asg) :
    currentOf known (g :: gs) ≠ [] ∧
      ∃ tail,
        assignLevelsFuel fuel (known ++ (currentOf known (g :: gs)).map (fun x => x.output))
            (restOf known (g :: gs)) (lvl + 1) = some tail ∧
          asg = (currentOf known (g :: gs)).map (fun x => (x, lvl)) ++ tail := by
  rw [alf_succ] at h
  by_cases hcur : currentOf known (g :: gs) = []
  · rw [if_pos hcur] at h
    simp at h
  · rw [if_neg hcur] at h
    refine ⟨hcur, ?_⟩
    cases hrec : assignLevelsFuel fuel
        (known ++ (currentOf known (g :: gs)).map (fun x => x.output))
        (restOf known (g :: gs)) (lvl + 1) with
    | none => rw [hrec] at h; simp at h
    | some tail =>
      rw [hrec] at h
      injection h with h2
      exact ⟨tail, rfl, h2.symm⟩

/-- A filter misses at least one element, so it is strictly shorter. -/
theorem length_filter_lt_of_exists {α : Type} (p : α → Bool) (l : List α) (x : α)
    (hx : x ∈ l) (hpx : p x = false) : (l.filter p).length < l.length := by
  induction l with
  | nil => cases hx
  | cons a as ih =>
    rcases List.mem_cons.mp hx with rfl | hx2
    · have h1 := List.length_filter_le p as
      simp [List.filter_cons, hpx]
      omega
    · by_cases hpa : p a = true
      · have h2 := ih hx2
        simp [List.filter_cons, hpa]
        omega
      · have h2 := List.length_filter_le p as
        have hpa2 : p a = false := by
          cases hval : p a
          · rfl
          · exact absurd hval hpa
        simp [List.filter_cons, hpa2]
        omega

/-- A round levels at least one gate, so the next round's remainder is
strictly shorter: the fuel bound `remaining.length` is invariant. -/
theorem restOf_length_lt {known : List String} {rem : List Gate}
    (hcur : currentOf known rem ≠ []) : (restOf known rem).length < rem.length := by
  obtain ⟨x, hx⟩ := List.exists_mem_of_ne_nil _ hcur
  obtain ⟨hmem, hready⟩ := mem_currentOf.mp hx
  have : (rem.filter (fun g => !readyB known g && decide (g.level = none))).length < rem.length :=
    length_filter_lt_of_exists _ rem x hmem (by simp [hready])
  exact this

/-- Any fuel at least `remaining.length` computes the same result:
the fuel-indexed recursion is a faithful rendering of the unbounded
`while` loop. -/
theorem assignLevelsFuel_stable :
    ∀ (fuel : Nat) (known : List String) (rem : List Gate) (lvl : Nat), rem.length ≤ fuel →
      assignLevelsFuel (fuel + 1) known rem lvl = assignLevelsFuel fuel known rem lvl := by
  intro fuel
  induction fuel with
  | zero =>
    intro known rem lvl hlen
    have hnil : rem = [] := List.length_eq_zero.mp (Nat.le_zero.mp hlen)
    subst hnil
    rw [alf_nil, alf_nil]
  | succ fuel ih =>
    intro known rem lvl hlen
    cases rem with
    | nil => rw [alf_nil, alf_nil]
    | cons g gs =>
      rw [alf_succ, alf_succ]
      by_cases hcur : currentOf known (g :: gs) = []
      · rw [if_pos hcur, if_pos hcur]
      · rw [if_neg hcur, if_neg hcur]
        have hlt := restOf_length_lt hcur
        have hrest : (restOf known (g :: gs)).length ≤ fuel := by
          simp at hlt hlen ⊢
          omega
        rw [ih _ _ _ hrest]

/-- Every pair of a successful run has level at least the starting
round number, and its gate was among the remaining gates. -/
theorem alf_mem_spec :
    ∀ (fuel : Nat) (known : List String) (rem : List Gate) (lvl : Nat) (asg : List (Gate × Nat)),
      assignLevelsFuel fuel known rem lvl = some asg →
        ∀ p ∈ asg, lvl ≤ p.2 ∧ p.1 ∈ rem := by
  intro fuel
  induction fuel with
  | zero =>
    intro known rem lvl asg h p hp
    cases rem with
    | nil =>
      rw [alf_nil] at h
      injection h with h2
      subst h2
      simp at hp
    | cons g gs => rw [alf_zero] at h; simp at h
  | succ fuel ih =>
    intro known rem lvl asg h p hp
    cases rem with
    | nil =>
      rw [alf_nil] at h
      injection h with h2
      subst h2
      simp at hp
    | cons g gs =>
      obtain ⟨hcur, tail, hrec, rfl⟩ := alf_succ_inv fuel known g gs lvl asg h
      rcases List.mem_append.mp hp with hp1 | hp2
      · obtain ⟨x, hx, rfl⟩ := List.mem_map.mp hp1
        exact ⟨Nat.le_refl _, (mem_currentOf.mp hx).1⟩
      · obtain ⟨hlv, hmem⟩ := ih _ _ _ _ hrec p hp2
        exact ⟨by omega, (mem_restOf.mp hmem).1⟩

/-- Every input of a levelled gate is either known at the start of the
run or is the output of a gate levelled in a strictly earlier round. -/
theorem alf_inputs_spec :
    ∀ (fuel : Nat) (known : List String) (rem : List Gate) (lvl : Nat) (asg : List (Gate × Nat)),
      assignLevelsFuel fuel known rem lvl = some asg →
        ∀ p ∈ asg, ∀ i ∈ p.1.inputs, i ∈ known ∨ ∃ q ∈ asg, q.2 < p.2 ∧ q.1.output = i := by
  intro fuel
  induction fuel with
  | zero =>
    intro known rem lvl asg h p hp
    cases rem with
    | nil =>
      rw [alf_nil] at h
      injection h with h2
      subst h2
      simp at hp
    | cons g gs => rw [alf_zero] at h; simp at h
  | succ fuel ih =>
    intro known rem lvl asg h p hp i hi
    cases rem with
    | nil =>
      rw [alf_nil] at h
      injection h with h2
      subst h2
      simp at hp
    | cons g gs =>
      obtain ⟨hcur, tail, hrec, rfl⟩ := alf_succ_inv fuel known g gs lvl asg h
      rcases List.mem_append.mp hp with hp1 | hp2
      · obtain ⟨x, hx, rfl⟩ := List.mem_map.mp hp1
        exact Or.inl ((readyB_iff known x).mp (mem_currentOf.mp hx).2 i hi)
      · rcases ih _ _ _ _ hrec p hp2 i hi with hk | ⟨q, hq, hqlt, hqout⟩
        · rcases List.mem_append.mp hk with hk1 | hk2
          · exact Or.inl hk1
          · obtain ⟨x, hx, hxo⟩ := List.mem_map.mp hk2
            refine Or.inr ⟨(x, lvl), List.mem_append.mpr (Or.inl (List.mem_map.mpr ⟨x, hx, rfl⟩)), ?_, hxo⟩
            have := (alf_mem_spec fuel _ _ _ _ hrec p hp2).1
            omega
        · exact Or.inr ⟨q, List.mem_append.mpr (Or.inr hq), hqlt, hqout⟩

/-- Tightness: a levelled gate either sits in the first round of the
run or has a driver levelled exactly one round earlier. -/
theorem alf_tight_spec :
    ∀ (fuel : Nat) (known : List String) (rem : List Gate) (lvl : Nat) (asg : List (Gate × Nat)),
      assignLevelsFuel fuel known rem lvl = some asg →
        ∀ p ∈ asg, p.2 = lvl ∨ ∃ q ∈ asg, q.2 + 1 = p.2 ∧ q.1.output ∈ p.1.inputs := by
  intro fuel
  induction fuel with
  | zero =>
    intro known rem lvl asg h p hp
    cases rem with
    | nil =>
      rw [alf_nil] at h
      injection h with h2
      subst h2
      simp at hp
    | cons g gs => rw [alf_zero] at h; simp at h
  | succ fuel ih =>
    intro known rem lvl asg h p hp
    cases rem with
    | nil =>
      rw [alf_nil] at h
      injection h with h2
      subst h2
      simp at hp
    | cons g gs =>
      obtain ⟨hcur, tail, hrec, rfl⟩ := alf_succ_inv fuel known g gs lvl asg h
      rcases List.mem_append.mp hp with hp1 | hp2
      · obtain ⟨x, hx, rfl⟩ := List.mem_map.mp hp1
        exact Or.inl rfl
      · rcases ih _ _ _ _ hrec p hp2 with heq | ⟨q, hq, hqeq, hqin⟩
        · have hrest := (alf_mem_spec fuel _ _ _ _ hrec p hp2).2
          have hready := (mem_restOf.mp hrest).2.1
          have hnot : ¬ ∀ i ∈ p.1.inputs, i ∈ known := by
            rw [← readyB_iff known p.1]
            simp [hready]
          push_neg at hnot
          obtain ⟨i, hiIn, hiNot⟩ := hnot
          rcases alf_inputs_spec fuel _ _ _ _ hrec p hp2 i hiIn with hk | ⟨q, hq, hqlt, hqout⟩
          · rcases List.mem_append.mp hk with hk1 | hk2
            · exact absurd hk1 hiNot
            · obtain ⟨x, hx, hxo⟩ := List.mem_map.mp hk2
              refine Or.inr ⟨(x, lvl),
                List.mem_append.mpr (Or.inl (List.mem_map.mpr ⟨x, hx, rfl⟩)), by omega, ?_⟩
              rw [hxo]
              exact hiIn
          · have := (alf_mem_spec fuel _ _ _ _ hrec q hq).1
            omega
        · exact Or.inr ⟨q, List.mem_append.mpr (Or.inr hq), hqeq, hqin⟩

/-- Coverage: every remaining gate whose `level` field is still `None`
receives a level in a successful run. -/
theorem alf_coverage :
    ∀ (fuel : Nat) (known : List String) (rem : List Gate) (lvl : Nat) (asg : List (Gate × Nat)),
      assignLevelsFuel fuel known rem lvl = some asg →
        ∀ g2 ∈ rem, g2.level = none → ∃ l, (g2, l) ∈ asg := by
  intro fuel
  induction fuel with
  | zero =>
    intro known rem lvl asg h g2 hg2 hlev
    cases rem with
    | nil => simp at hg2
    | cons g gs => rw [alf_zero] at h; simp at h
  | succ fuel ih =>
    intro known rem lvl asg h g2 hg2 hlev
    cases rem with
    | nil => simp at hg2
    | cons g gs =>
      obtain ⟨hcur, tail, hrec, rfl⟩ := alf_succ_inv fuel known g gs lvl asg h
      cases hready : readyB known g2 with
      | true =>
        refine ⟨lvl, List.mem_append.mpr (Or.inl (List.mem_map.mpr ⟨g2, ?_, rfl⟩))⟩
        exact mem_currentOf.mpr ⟨hg2, hready⟩
      | false =>
        obtain ⟨l, hl⟩ := ih _ _ _ _ hrec g2 (mem_restOf.mpr ⟨hg2, hready, hlev⟩) hlev
        exact ⟨l, List.mem_append.mpr (Or.inr hl)⟩

/-- Structurally identical gates receive the same level (in Python the
copies are distinct objects, but they pass and fail exactly the same
readiness tests, so they are levelled in the same round). -/
theorem alf_level_functional :
    ∀ (fuel : Nat) (known : List String) (rem : List Gate) (lvl : Nat) (asg : List (Gate × Nat)),
      assignLevelsFuel fuel known rem lvl = some asg →
        ∀ p ∈ asg, ∀ q ∈ asg, p.1 = q.1 → p.2 = q.2 := by
  intro fuel
  induction fuel with
  | zero =>
    intro known rem lvl asg h p hp q hq hpq
    cases rem with
    | nil =>
      rw [alf_nil] at h
      injection h with h2
      subst h2
      simp at hp
    | cons g gs => rw [alf_zero] at h; simp at h
  | succ fuel ih =>
    intro known rem lvl asg h p hp q hq hpq
    cases rem with
    | nil =>
      rw [alf_nil] at h
      injection h with h2
      subst h2
      simp at hp
    | cons g gs =>
      obtain ⟨hcur, tail, hrec, rfl⟩ := alf_succ_inv fuel known g gs lvl asg h
      rcases List.mem_append.mp hp with hp1 | hp2 <;> rcases List.mem_append.mp hq with hq1 | hq2
      · obtain ⟨x, hx, rfl⟩ := List.mem_map.mp hp1
        obtain ⟨y, hy, rfl⟩ := List.mem_map.mp hq1
        rfl
      · obtain ⟨x, hx, rfl⟩ := List.mem_map.mp hp1
        have hre := (alf_mem_spec fuel _ _ _ _ hrec q hq2).2
        have hqf := (mem_restOf.mp hre).2.1
        have hxt := (mem_currentOf.mp hx).2
        have hpq2 : x = q.1 := hpq
        rw [hpq2] at hxt
        rw [hxt] at hqf
        simp at hqf
      · obtain ⟨y, hy, rfl⟩ := List.mem_map.mp hq1
        have hre := (alf_mem_spec fuel _ _ _ _ hrec p hp2).2
        have hpf := (mem_restOf.mp hre).2.1
        have hyt := (mem_currentOf.mp hy).2
        have hpq2 : p.1 = y := hpq
        rw [← hpq2] at hyt
        rw [hyt] at hpf
        simp at hpf
      · exact ih _ _ _ _ hrec p hp2 q hq2 hpq

/-- Driver-list membership unfolded. -/
theorem mem_driversOf {asg : List (Gate × Nat)} {g : Gate} {q : Gate × Nat} :
    q ∈ driversOf asg g ↔ q ∈ asg ∧ q.1.output ∈ g.inputs := by
  simp [driversOf, List.mem_filter]

/-- A member bounds `maxList` from below. -/
theorem le_maxList {l : List Nat} {x : Nat} (hx : x ∈ l) : x ≤ maxList l := by
  induction l with
  | nil => cases hx
  | cons a as ih =>
    have hfold : maxList (a :: as) = max a (maxList as) := rfl
    rcases List.mem_cons.mp hx with rfl | h2
    · rw [hfold]; exact Nat.le_max_left _ _
    · rw [hfold]; exact le_trans (ih h2) (Nat.le_max_right _ _)

/-- An upper bound for all members bounds `maxList` from above. -/
theorem maxList_le {l : List Nat} {b : Nat} (h : ∀ x ∈ l, x ≤ b) : maxList l ≤ b := by
  induction l with
  | nil => simp [maxList]
  | cons a as ih =>
    have hfold : maxList (a :: as) = max a (maxList as) := rfl
    rw [hfold]
    exact max_le (h a (by simp)) (ih (fun x hx => h x (by simp [hx])))

/-- Under distinct gate outputs that avoid the primary-input names,
a successful run orders drivers strictly below the gates they feed. -/
theorem assignLevels_strict (fuel : Nat) (nl : Netlist)
    (hnodup : (nl.gates.map (fun g => g.output)).Nodup)
    (hdisj : ∀ g ∈ nl.gates, g.output ∉ nl.inputs)
    (asg : List (Gate × Nat))
    (h : assignLevelsFuel fuel nl.inputs nl.gates 1 = some asg) :
    ∀ p ∈ asg, ∀ q ∈ asg, q.1.output ∈ p.1.inputs → q.2 < p.2 := by
  intro p hp q hq hdrv
  rcases alf_inputs_spec fuel _ _ _ _ h p hp q.1.output hdrv with hk | ⟨r, hr, hrlt, hrout⟩
  · exact absurd hk (hdisj q.1 (alf_mem_spec fuel _ _ _ _ h q hq).2)
  · have hrg : r.1 ∈ nl.gates := (alf_mem_spec fuel _ _ _ _ h r hr).2
    have hqg : q.1 ∈ nl.gates := (alf_mem_spec fuel _ _ _ _ h q hq).2
    have heq : r.1 = q.1 := List.inj_on_of_nodup_map hnodup hrg hqg hrout
    have := alf_level_functional fuel _ _ _ _ h r hr q hq heq
    omega

/-- C1 (corrected). For a netlist whose gate outputs are pairwise
distinct and disjoint from the declared primary inputs, and whose
gates are all still unleveled (the state in which the parser delivers
them), a successful run of `assign_levels` levels every gate, gives
every gate a level at least 1 that is strictly greater than the level
of every gate driving one of its inputs, and the level is exactly
`1 + max(driver levels)` when some assigned driver exists and exactly
`1` — with every input a primary input — when none does. -/
theorem assign_levels_spec_of_wellformed (nl : Netlist)
    (hnodup : (nl.gates.map (fun g => g.output)).Nodup)
    (hdisj : ∀ g ∈ nl.gates, g.output ∉ nl.inputs)
    (hfresh : ∀ g ∈ nl.gates, g.level = none)
    (asg : List (Gate × Nat))
    (h : assignLevels nl = some asg) :
    (∀ g ∈ nl.gates, ∃ l, (g, l) ∈ asg) ∧
    (∀ p ∈ asg, 1 ≤ p.2 ∧ p.1 ∈ nl.gates) ∧
    (∀ p ∈ asg, ∀ q ∈ asg, q.1.output ∈ p.1.inputs → q.2 < p.2) ∧
    (∀ p ∈ asg, driversOf asg p.1 = [] → p.2 = 1 ∧ ∀ i ∈ p.1.inputs, i ∈ nl.inputs) ∧
    (∀ p ∈ asg, driversOf asg p.1 ≠ [] →
      p.2 = 1 + maxList ((driversOf asg p.1).map (fun q => q.2))) := by
  have h' : assignLevelsFuel nl.gates.length nl.inputs nl.gates 1 = some asg := h
  have hstrict := assignLevels_strict nl.gates.length nl hnodup hdisj asg h'
  refine ⟨?_, ?_, hstrict, ?_, ?_⟩
  · intro g hg
    exact alf_coverage _ _ _ _ _ h' g hg (hfresh g hg)
  · intro p hp
    exact alf_mem_spec _ _ _ _ _ h' p hp
  · intro p hp hD
    constructor
    · rcases alf_tight_spec _ _ _ _ _ h' p hp with h1 | ⟨q, hq, hqe, hqi⟩
      · exact h1
      · exfalso
        have hmem : q ∈ driversOf asg p.1 := mem_driversOf.mpr ⟨hq, hqi⟩
        rw [hD] at hmem
        simp at hmem
    · intro i hi
      rcases alf_inputs_spec _ _ _ _ _ h' p hp i hi with hk | ⟨r, hr, hrlt, hrout⟩
      · exact hk
      · exfalso
        have hmem : r ∈ driversOf asg p.1 := mem_driversOf.mpr ⟨hr, by rw [hrout]; exact hi⟩
        rw [hD] at hmem
        simp at hmem
  · intro p hp hD
    obtain ⟨d0, hd0⟩ := List.exists_mem_of_ne_nil _ hD
    obtain ⟨hd0a, hd0i⟩ := mem_driversOf.mp hd0
    have hd0lt : d0.2 < p.2 := hstrict p hp d0 hd0a hd0i
    have hd0ge : 1 ≤ d0.2 := (alf_mem_spec _ _ _ _ _ h' d0 hd0a).1
    rcases alf_tight_spec _ _ _ _ _ h' p hp with h1 | ⟨q, hq, hqe, hqi⟩
    · omega
    · have hqD : q ∈ driversOf asg p.1 := mem_driversOf.mpr ⟨hq, hqi⟩
      have hle : maxList ((driversOf asg p.1).map (fun q => q.2)) ≤ q.2 := by
        apply maxList_le
        intro x hx
        obtain ⟨r, hrD, rfl⟩ := List.mem_map.mp hx
        obtain ⟨hra, hri⟩ := mem_driversOf.mp hrD
        have := hstrict p hp r hra hri
        omega
      have hge : q.2 ≤ maxList ((driversOf asg p.1).map (fun q => q.2)) :=
        le_maxList (List.mem_map.mpr ⟨q, hqD, rfl⟩)
      omega

/-- Witness for C1 on the c17 network: all hypotheses hold and the
conclusion evaluates on the concrete assignment `asgC17`. -/
theorem assign_levels_spec_witness :
    (∀ g ∈ c17.gates, ∃ l, (g, l) ∈ asgC17) ∧
    (∀ p ∈ asgC17, 1 ≤ p.2 ∧ p.1 ∈ c17.gates) ∧
    (∀ p ∈ asgC17, ∀ q ∈ asgC17, q.1.output ∈ p.1.inputs → q.2 < p.2) ∧
    (∀ p ∈ asgC17, driversOf asgC17 p.1 = [] → p.2 = 1 ∧ ∀ i ∈ p.1.inputs, i ∈ c17.inputs) ∧
    (∀ p ∈ asgC17, driversOf asgC17 p.1 ≠ [] →
      p.2 = 1 + maxList ((driversOf asgC17 p.1).map (fun q => q.2))) :=
  assign_levels_spec_of_wellformed c17 (by decide) (by decide) (by decide) asgC17 (by decide)

/-- C1 counterexample: on `nlColl` — whose leveling succeeds — gate
`G2` is driven by `G1` (signal `a`) yet both receive level 1, because
`a` is also a declared primary input and hence known from the start;
the claim's strict inequality fails as stated for arbitrary netlists. -/
theorem assign_levels_not_strict_on_input_collision :
    ¬ (∀ asg, assignLevels nlColl = some asg →
        ∀ p ∈ asg, ∀ q ∈ asg, q.1.output ∈ p.1.inputs → q.2 < p.2) := by
  intro hclaim
  have h1 : assignLevels nlColl = some [(gColl1, 1), (gColl2, 1)] := by decide
  have h2 := hclaim [(gColl1, 1), (gColl2, 1)] h1 (gColl2, 1) (by decide) (gColl1, 1)
    (by decide) (by decide)
  exact absurd h2 (by decide)

/-- Both endpoints of a driving chain are gates of the netlist. -/
theorem transGen_drivesIn_mem {nl : Netlist} {a b : Gate}
    (h : Relation.TransGen (drivesIn nl) a b) : a ∈ nl.gates ∧ b ∈ nl.gates := by
  induction h with
  | single hr => exact ⟨hr.1, hr.2.1⟩
  | tail hab hbc ih => exact ⟨ih.1, hbc.2.1⟩

/-- Levels increase strictly along any transitive driving chain of a
well-formed netlist whose leveling succeeded. -/
theorem assignLevels_chain_lt (fuel : Nat) (nl : Netlist)
    (hnodup : (nl.gates.map (fun g => g.output)).Nodup)
    (hdisj : ∀ g ∈ nl.gates, g.output ∉ nl.inputs)
    (hfresh : ∀ g ∈ nl.gates, g.level = none)
    (asg : List (Gate × Nat))
    (h : assignLevelsFuel fuel nl.inputs nl.gates 1 = some asg) :
    ∀ a b, Relation.TransGen (drivesIn nl) a b →
      ∀ la lb, (a, la) ∈ asg → (b, lb) ∈ asg → la < lb := by
  have hstrict := assignLevels_strict fuel nl hnodup hdisj asg h
  intro a b hab
  induction hab with
  | single hr =>
    intro la lb ha hb
    exact hstrict _ hb _ ha hr.2.2
  | tail hab2 hbc ih =>
    intro la lb ha hb
    obtain ⟨lm, hm⟩ := alf_coverage fuel _ _ _ _ h _ hbc.1 (hfresh _ hbc.1)
    have h1 := ih la lm ha hm
    have h2 := hstrict _ hb _ hm hbc.2.2
    omega

/-- C5 (corrected). For a netlist whose gate outputs are pairwise
distinct, none of which is a declared primary input, and whose gates
are all still unleveled: if some gate depends — directly or
transitively — on its own output, `assign_levels` raises the
unresolvable-dependency error no matter how many rounds it is allowed
to run (so in particular it terminates with that error rather than
looping). -/
theorem assign_levels_none_of_cycle (nl : Netlist)
    (hnodup : (nl.gates.map (fun g => g.output)).Nodup)
    (hdisj : ∀ g ∈ nl.gates, g.output ∉ nl.inputs)
    (hfresh : ∀ g ∈ nl.gates, g.level = none)
    (hcyc : ∃ g, Relation.TransGen (drivesIn nl) g g) :
    (∀ fuel, assignLevelsFuel fuel nl.inputs nl.gates 1 = none) ∧ assignLevels nl = none := by
  have hmain : ∀ fuel, assignLevelsFuel fuel nl.inputs nl.gates 1 = none := by
    intro fuel
    cases hres : assignLevelsFuel fuel nl.inputs nl.gates 1 with
    | none => rfl
    | some asg =>
      exfalso
      obtain ⟨g, hg⟩ := hcyc
      have hgmem : g ∈ nl.gates := (transGen_drivesIn_mem hg).1
      obtain ⟨l, hl⟩ := alf_coverage fuel _ _ _ _ hres g hgmem (hfresh g hgmem)
      exact absurd (assignLevels_chain_lt fuel nl hnodup hdisj hfresh asg hres g g hg l l hl hl)
        (by omega)
  exact ⟨hmain, hmain nl.gates.length⟩

/-- Witness for C5: the one-gate netlist `nand G (x, x)` with no
primary inputs is rejected by the leveler at any fuel. -/
theorem assign_levels_none_of_cycle_witness :
    assignLevelsFuel 5 nlSelf.inputs nlSelf.gates 1 = none ∧ assignLevels nlSelf = none := by
  have h := assign_levels_none_of_cycle nlSelf (by decide) (by decide) (by decide)
    ⟨gSelfInp, Relation.TransGen.single ⟨by decide, by decide, by decide⟩⟩
  exact ⟨h.1 5, h.2⟩

/-- C5 counterexample: in `nlSelfInp` the gate `nand G (x, x)` depends
directly on its own output, yet because `x` is also a declared primary
input `assign_levels` succeeds instead of raising. -/
theorem assign_levels_succeeds_on_input_driven_self_loop :
    drivesIn nlSelfInp gSelfInp gSelfInp ∧ gSelfInp ∈ nlSelfInp.gates ∧
      assignLevels nlSelfInp ≠ none := by
  refine ⟨⟨by decide, by decide, by decide⟩, by decide, by decide⟩

/-- Applying a level assignment only touches the `level` field. -/
theorem applyAssignment_inputs (asg : List (Gate × Nat)) (g : Gate) :
    (applyAssignment asg g).inputs = g.inputs := by
  unfold applyAssignment
  split <;> rfl

/-- Readiness only reads the inputs, so it is unchanged by levelling. -/
theorem readyB_applyAssignment (known : List String) (asg : List (Gate × Nat)) (g : Gate) :
    readyB known (applyAssignment asg g) = readyB known g := by
  unfold readyB
  rw [applyAssignment_inputs]

/-- A gate found in the assignment keeps its recorded level. -/
theorem applyAssignment_of_found {asg : List (Gate × Nat)} {g : Gate} {r : Gate × Nat}
    (h : asg.find? (fun p => decide (p.1 = g)) = some r) :
    applyAssignment asg g = { g with level := some r.2 } := by
  unfold applyAssignment
  rw [h]

/-- A gate absent from the assignment is untouched. -/
theorem applyAssignment_of_not_found {asg : List (Gate × Nat)} {g : Gate}
    (h : asg.find? (fun p => decide (p.1 = g)) = none) :
    applyAssignment asg g = g := by
  unfold applyAssignment
  rw [h]

/-- The current round of a levelled gate list is the levelled current
round of the original list. -/
theorem currentOf_map_apply (known : List String) (asg : List (Gate × Nat)) (l : List Gate) :
    currentOf known (l.map (applyAssignment asg)) =
      (currentOf known l).map (applyAssignment asg) := by
  unfold currentOf
  rw [List.filter_map]
  exact congrArg _ (List.filter_congr (fun x _ => readyB_applyAssignment known asg x))

/-- After a successful run every gate of the netlist carries a level:
gates reached by the run are overwritten with their round number, and
a gate the run never levelled must already have had a non-`None`
level (otherwise it would have stayed in `remaining_gates` forever). -/
theorem applyAssignment_level_isSome (nl : Netlist) (asg : List (Gate × Nat))
    (hA : assignLevels nl = some asg) (y : Gate) (hy : y ∈ nl.gates) :
    ((applyAssignment asg y).level).isSome = true := by
  have hA' : assignLevelsFuel nl.gates.length nl.inputs nl.gates 1 = some asg := hA
  cases hf : asg.find? (fun p => decide (p.1 = y)) with
  | some p =>
    rw [applyAssignment_of_found hf]
    rfl
  | none =>
    rw [applyAssignment_of_not_found hf]
    cases hlev : y.level with
    | some l => rfl
    | none =>
      exfalso
      obtain ⟨l, hl⟩ := alf_coverage _ _ _ _ _ hA' y hy hlev
      have hnone := List.find?_eq_none.mp hf (y, l) hl
      simp at hnone

/-- Running the leveller on a list of gates that all already carry a
level stops after one round: the first round re-levels the gates whose
inputs are all primary, and the `g.level is None` filter then removes
every other gate, ending the loop. -/
theorem alf_all_some (known : List String) (rem : List Gate)
    (hsome : ∀ x ∈ rem, x.level.isSome = true)
    (hcur : rem = [] ∨ currentOf known rem ≠ []) :
    ∀ fuel, rem.length ≤ fuel →
      assignLevelsFuel fuel known rem 1 = some ((currentOf known rem).map (fun x => (x, 1))) := by
  intro fuel hfuel
  cases rem with
  | nil =>
    rw [alf_nil]
    rfl
  | cons g gs =>
    rcases hcur with hnil | hcur2
    · simp at hnil
    · cases fuel with
      | zero => simp at hfuel
      | succ f =>
        rw [alf_succ, if_neg hcur2]
        have hrest : restOf known (g :: gs) = [] := by
          unfold restOf
          rw [List.filter_eq_nil_iff]
          intro x hx hcontra
          have hs := hsome x hx
          have hc := (Bool.and_eq_true _ _).mp hcontra
          have hnone : x.level = none := of_decide_eq_true hc.2
          rw [hnone] at hs
          simp at hs
        rw [hrest, alf_nil]
        simp

/-- Re-running `assign_levels` on the netlist a successful run left
behind succeeds and assigns level 1 to exactly the original first
round's gates. -/
theorem assignLevels_on_leveled (nl : Netlist) (asg : List (Gate × Nat))
    (hA : assignLevels nl = some asg) :
    assignLevels { nl with gates := nl.gates.map (applyAssignment asg) } =
      some ((currentOf nl.inputs nl.gates).map (fun x => (applyAssignment asg x, 1))) := by
  have hsome : ∀ x ∈ nl.gates.map (applyAssignment asg), x.level.isSome = true := by
    intro x hx
    obtain ⟨y, hy, rfl⟩ := List.mem_map.mp hx
    exact applyAssignment_level_isSome nl asg hA y hy
  have hcur : nl.gates.map (applyAssignment asg) = [] ∨
      currentOf nl.inputs (nl.gates.map (applyAssignment asg)) ≠ [] := by
    have hA' : assignLevelsFuel nl.gates.length nl.inputs nl.gates 1 = some asg := hA
    cases hg : nl.gates with
    | nil => exact Or.inl rfl
    | cons g0 gs =>
      right
      rw [hg] at hA'
      simp only [List.length_cons] at hA'
      have hinv := alf_succ_inv gs.length nl.inputs g0 gs 1 asg hA'
      rw [currentOf_map_apply]
      intro hcontra
      exact hinv.1 (List.map_eq_nil_iff.mp hcontra)
  have hres := alf_all_some nl.inputs (nl.gates.map (applyAssignment asg)) hsome hcur
    (nl.gates.map (applyAssignment asg)).length (le_refl _)
  show assignLevelsFuel (nl.gates.map (applyAssignment asg)).length nl.inputs
      (nl.gates.map (applyAssignment asg)) 1 = _
  rw [hres, currentOf_map_apply, List.map_map]
  rfl

/-- A map that fixes every member of a list fixes the list. -/
theorem map_eq_self_of {α : Type} (f : α → α) (l : List α) (h : ∀ x ∈ l, f x = x) :
    l.map f = l := by
  induction l with
  | nil => rfl
  | cons a as ih =>
    have h1 := h a (by simp)
    have h2 := ih (fun x hx => h x (by simp [hx]))
    simp [h1, h2]

/-- A gate of the netlist left by a successful run is in the current
round of the original netlist iff its inputs are all primary, and in
that case the original run already stamped it with level 1; so the
second run's assignment changes nothing. -/
theorem applyAssignment_roundone_id (nl : Netlist) (asg : List (Gate × Nat))
    (hA : assignLevels nl = some asg) (x : Gate)
    (hx : x ∈ nl.gates.map (applyAssignment asg)) :
    applyAssignment ((currentOf nl.inputs nl.gates).map (fun c => (applyAssignment asg c, 1))) x
      = x := by
  have hA' : assignLevelsFuel nl.gates.length nl.inputs nl.gates 1 = some asg := hA
  cases hf : ((currentOf nl.inputs nl.gates).map (fun c => (applyAssignment asg c, 1))).find?
      (fun p => decide (p.1 = x)) with
  | none => exact applyAssignment_of_not_found hf
  | some r =>
    rw [applyAssignment_of_found hf]
    have hrmem := List.mem_of_find?_eq_some hf
    obtain ⟨c, hc, hcr⟩ := List.mem_map.mp hrmem
    have hr2 : r.2 = 1 := by rw [← hcr]
    have hpr := List.find?_some hf
    have hrx : r.1 = x := of_decide_eq_true hpr
    have hc1 : (c, 1) ∈ asg := by
      have hcg : c ∈ nl.gates := (mem_currentOf.mp hc).1
      obtain ⟨g0, gs, hgs⟩ := List.exists_cons_of_ne_nil (List.ne_nil_of_mem hcg)
      rw [hgs] at hA'
      simp only [List.length_cons] at hA'
      obtain ⟨hcur, tail, hrec, hasg⟩ := alf_succ_inv gs.length nl.inputs g0 gs 1 asg hA'
      rw [hasg]
      rw [hgs] at hc
      exact List.mem_append.mpr (Or.inl (List.mem_map.mpr ⟨c, hc, rfl⟩))
    have hxl : x.level = some 1 := by
      rw [← hrx, ← hcr]
      cases hf2 : asg.find? (fun p => decide (p.1 = c)) with
      | none =>
        exfalso
        have := List.find?_eq_none.mp hf2 (c, 1) hc1
        simp at this
      | some r2 =>
        rw [applyAssignment_of_found hf2]
        have hr2mem := List.mem_of_find?_eq_some hf2
        have hpr2 := List.find?_some hf2
        have hr2c : r2.1 = c := of_decide_eq_true hpr2
        have := alf_level_functional _ _ _ _ _ hA' r2 hr2mem (c, 1) hc1 hr2c
        simp [this]
    rw [hr2, ← hxl]

/-- C7 (confirmed). Re-running `assign_levels` on a netlist it has
already levelled is idempotent: the second run terminates after one
round (every gate now has a non-`None` level, so the
`g.level is None` filter empties `remaining_gates`), re-stamps the
level-1 gates with level 1, and leaves every other gate's level
untouched, reproducing the identical netlist. -/
theorem level_idempotent (nl nl' : Netlist) (h : levelNetlist nl = some nl') :
    levelNetlist nl' = some nl' := by
  unfold levelNetlist at h
  cases hA : assignLevels nl with
  | none => rw [hA] at h; simp at h
  | some asg =>
    rw [hA] at h
    injection h with h2
    subst h2
    unfold levelNetlist
    rw [assignLevels_on_leveled nl asg hA]
    have hmapid : (nl.gates.map (applyAssignment asg)).map
        (applyAssignment ((currentOf nl.inputs nl.gates).map (fun c => (applyAssignment asg c, 1))))
        = nl.gates.map (applyAssignment asg) :=
      map_eq_self_of _ _ (fun x hx => applyAssignment_roundone_id nl asg hA x hx)
    exact congrArg (fun gs => some { nl with gates := gs }) hmapid

/-- Witness for C7: levelling the already-levelled c17 reproduces it. -/
theorem level_idempotent_witness : levelNetlist c17Leveled = some c17Leveled :=
  level_idempotent c17 c17Leveled (by decide)

/-- Once the input values are resolved, `evaluate_gate` is the type
dispatch on them. -/
theorem evaluateGate_eq_of_resolve (g : Gate) (sv : List (String × Nat)) (vals : List Nat)
    (hres : resolveInputs sv g.inputs = some vals) :
    evaluateGate g sv = gateDispatch g.gtype vals := by
  unfold evaluateGate gateDispatch
  cases h2 : resolveInputs sv g.inputs with
  | none => rw [h2] at hres; simp at hres
  | some vals2 =>
    rw [h2] at hres
    injection hres with h3
    subst h3
    rfl

/-- C8 (confirmed). An `xor` gate with at least one resolved 0/1 input
value evaluates to the overall parity of its inputs — the sum of the
resolved values modulo 2 — for any number of inputs. -/
theorem evaluate_gate_xor_parity (g : Gate) (sv : List (String × Nat)) (vals : List Nat)
    (hg : g.gtype = "xor") (hres : resolveInputs sv g.inputs = some vals)
    (hn : vals ≠ []) (h01 : ∀ v ∈ vals, v = 0 ∨ v = 1) :
    evaluateGate g sv = some (vals.sum % 2) := by
  rw [evaluateGate_eq_of_resolve g sv vals hres, hg]
  unfold gateDispatch
  rw [if_neg (by decide), if_neg (by decide), if_neg (by decide), if_neg (by decide),
    if_pos rfl]

/-- Witness for C8 on a three-input xor with all inputs 1: the parity
of `[1, 1, 1]` is 1. -/
theorem evaluate_gate_xor_parity_witness :
    evaluateGate gXor3 [("a", 1), ("b", 1), ("c", 1)] = some 1 :=
  evaluate_gate_xor_parity gXor3 [("a", 1), ("b", 1), ("c", 1)] [1, 1, 1]
    (by decide) (by decide) (by decide) (by decide)

/-- C10 (confirmed). A `not` gate with one or more resolved 0/1 input
values evaluates `0 if inputs[0] else 1`: the complement of the first
resolved value, whatever the remaining inputs are. -/
theorem evaluate_gate_not_uses_first_input (g : Gate) (sv : List (String × Nat))
    (v : Nat) (rest : List Nat)
    (hg : g.gtype = "not") (hres : resolveInputs sv g.inputs = some (v :: rest))
    (h01 : v = 0 ∨ v = 1) :
    evaluateGate g sv = some (1 - v) := by
  rw [evaluateGate_eq_of_resolve g sv (v :: rest) hres, hg]
  unfold gateDispatch
  rw [if_neg (by decide), if_neg (by decide), if_neg (by decide), if_neg (by decide),
    if_neg (by decide), if_pos rfl]
  rcases h01 with rfl | rfl <;> rfl

/-- Witness for C10: a two-input `not` gate reads only its first
input (`a = 1`), ignoring `b = 0`. -/
theorem evaluate_gate_not_uses_first_input_witness :
    evaluateGate gNot2 [("a", 1), ("b", 0)] = some 0 :=
  evaluate_gate_not_uses_first_input gNot2 [("a", 1), ("b", 0)] 1 [0]
    (by decide) (by decide) (by decide)

/-- C4 counterexample: levelling and simulating the c17 network with
`N1=1, N2=0, N3=1, N6=0, N7=0` computes `N22 = 1` and `N23 = 0` — not
the `N22 = 0, N23 = 1` the claim states. -/
theorem c17_simulation_refutes_claimed_values :
    ((levelNetlist c17).bind (fun n => simulate n c17Vals)).map
        (fun r => (resLookup r "N22", resLookup r "N23")) =
      some (some (some 1), some (some 0)) := by
  decide

/-- C4 (corrected): the round-trip fixture actually yields
`N22 = 1, N23 = 0`. -/
theorem c17_simulation_values :
    (levelNetlist c17).bind (fun n => simulate n c17Vals) =
      some [("N22", some 1), ("N23", some 0)] := by
  decide

/-- C3 counterexample: an input assignment containing the undeclared
name `Z9` is accepted silently — `simulate` returns the ordinary
result instead of raising before evaluation. -/
theorem simulate_accepts_undeclared_extra_input :
    (levelNetlist c17).bind (fun n => simulate n c17ValsExtra) =
      some [("N22", some 1), ("N23", some 0)] := by
  decide

/-- C3 (corrected): `simulate` performs no validation of
`input_values` — an undeclared extra name changes nothing, and a
missing declared input is only detected when the first gate evaluation
reads it, which aborts the run with no output values at all. -/
theorem simulate_no_input_validation :
    ((levelNetlist c17).bind (fun n => simulate n c17ValsExtra) =
      (levelNetlist c17).bind (fun n => simulate n c17Vals)) ∧
    (levelNetlist c17).bind (fun n => simulate n c17ValsMissing) = none := by
  exact ⟨by decide, by decide⟩

/-- A key absent from the association list looks up to `None`. -/
theorem dictGet_eq_none_of_not_mem (sv : List (String × Nat)) (x : String)
    (h : x ∉ sv.map (fun p => p.1)) : dictGet sv x = none := by
  unfold dictGet
  rw [Option.map_eq_none', List.find?_eq_none]
  intro q hq hbeq
  exact h (List.mem_map.mpr ⟨q, hq, eq_of_beq hbeq⟩)

/-- Inserting under a different key preserves an absent lookup. -/
theorem dictGet_insert_eq_none (sv : List (String × Nat)) (k : String) (v : Nat) (x : String)
    (hxk : ¬ x = k) (hnone : dictGet sv x = none) :
    dictGet (dictInsert sv k v) x = none := by
  unfold dictGet at hnone ⊢
  rw [Option.map_eq_none', List.find?_eq_none] at hnone
  unfold dictInsert
  rw [Option.map_eq_none', List.find?_eq_none]
  by_cases hany : sv.any (fun p => p.1 == k)
  · rw [if_pos hany]
    intro q hq hbeq
    obtain ⟨p, hp, rfl⟩ := List.mem_map.mp hq
    by_cases hpk : (p.1 == k) = true
    · rw [if_pos hpk] at hbeq
      exact hxk (eq_of_beq hbeq).symm
    · rw [if_neg hpk] at hbeq
      exact hnone p hp hbeq
  · rw [if_neg hany]
    intro q hq hbeq
    rcases List.mem_append.mp hq with hq1 | hq2
    · exact hnone q hq1 hbeq
    · have hq3 : q = (k, v) := by simpa using hq2
      subst hq3
      exact hxk (eq_of_beq hbeq).symm

/-- A level's worth of gate evaluations never records a value for a
signal that none of the gates drives. -/
theorem evalGateList_get_none (gs : List Gate) :
    ∀ (sv sv2 : List (String × Nat)) (x : String),
      evalGateList gs sv = some sv2 → (∀ g ∈ gs, ¬ g.output = x) →
        dictGet sv x = none → dictGet sv2 x = none := by
  induction gs with
  | nil =>
    intro sv sv2 x h hno hnone
    unfold evalGateList at h
    injection h with h2
    rw [← h2]
    exact hnone
  | cons g gs ih =>
    intro sv sv2 x h hno hnone
    unfold evalGateList at h
    cases he : evaluateGate g sv with
    | none => rw [he] at h; simp at h
    | some v =>
      rw [he] at h
      refine ih _ _ _ h (fun g2 hg2 => hno g2 (by simp [hg2])) ?_
      exact dictGet_insert_eq_none sv g.output v x
        (fun heq => hno g (by simp) heq.symm) hnone

/-- The level-ordered simulation never records a value for a signal no
gate drives. -/
theorem simLevels_get_none (gates : List Gate) (x : String) :
    ∀ (count lvl : Nat) (sv sv2 : List (String × Nat)),
      simLevelsFrom gates sv lvl count = some sv2 →
        (∀ g ∈ gates, ¬ g.output = x) → dictGet sv x = none → dictGet sv2 x = none := by
  intro count
  induction count with
  | zero =>
    intro lvl sv sv2 h hno hnone
    unfold simLevelsFrom at h
    injection h with h2
    rw [← h2]
    exact hnone
  | succ c ih =>
    intro lvl sv sv2 h hno hnone
    unfold simLevelsFrom at h
    cases he : evalGateList (gates.filter (fun g => decide (g.level = some lvl))) sv with
    | none => rw [he] at h; simp at h
    | some svm =>
      rw [he] at h
      refine ih _ _ _ h hno ?_
      exact evalGateList_get_none _ _ _ _ he
        (fun g hg => hno g (List.mem_of_mem_filter hg)) hnone

/-- C9 (corrected). If `simulate` returns a result at all, then a
declared output that no gate drives and that is outside the (complete)
input assignment maps to the distinguished non-numeric `None` in that
result, and to no numeric value — callers can tell it apart from a
computed 0/1. (The claim fails as stated when the leveled netlist has
no gates: `max()` over no levels raises and there is no result.) -/
theorem undriven_output_maps_to_unknown (nl : Netlist) (vals : List (String × Nat))
    (res : List (String × Option Nat)) (rout : String)
    (hkeys : vals.map (fun p => p.1) = nl.inputs)
    (hout : rout ∈ nl.outputs) (hninp : rout ∉ nl.inputs)
    (hnodrv : ∀ g ∈ nl.gates, ¬ g.output = rout)
    (hsim : simulate nl vals = some res) :
    (rout, (none : Option Nat)) ∈ res ∧ ∀ v : Nat, (rout, some v) ∉ res := by
  unfold simulate at hsim
  cases hm : maxGateLevel nl.gates with
  | none => rw [hm] at hsim; simp at hsim
  | some maxLevel =>
    rw [hm] at hsim
    have hsim2 : (match simLevelsFrom nl.gates vals 1 maxLevel with
        | none => none
        | some sv => some (nl.outputs.map (fun o => (o, dictGet sv o)))) = some res := hsim
    cases hs : simLevelsFrom nl.gates vals 1 maxLevel with
    | none => rw [hs] at hsim2; simp at hsim2
    | some sv =>
      rw [hs] at hsim2
      injection hsim2 with hres
      subst hres
      have hnone : dictGet sv rout = none := by
        refine simLevels_get_none nl.gates rout maxLevel 1 vals sv hs hnodrv ?_
        refine dictGet_eq_none_of_not_mem vals rout ?_
        rw [hkeys]
        exact hninp
      constructor
      · exact List.mem_map.mpr ⟨rout, hout, by rw [hnone]⟩
      · intro v hv
        obtain ⟨o, ho, heq⟩ := List.mem_map.mp hv
        have ho1 : o = rout := congrArg Prod.fst heq
        have ho2 : dictGet sv o = some v := congrArg Prod.snd heq
        rw [ho1, hnone] at ho2
        simp at ho2

/-- Witness for C9 on the one-gate netlist `not G (w, a)` with output
`b` undriven: the result maps `b` to `None` and to no numeric value. -/
theorem undriven_output_maps_to_unknown_witness :
    ("b", (none : Option Nat)) ∈ [("b", (none : Option Nat))] ∧
      ∀ v : Nat, ("b", some v) ∉ [("b", (none : Option Nat))] :=
  undriven_output_maps_to_unknown nlNotGate [("a", 1)] [("b", none)] "b"
    (by decide) (by decide) (by decide) (by decide) (by decide)

/-- C9 counterexample: `nlUndriven` is a leveled netlist (levelling
succeeds and changes nothing) with a complete input assignment and an
undriven non-input output `b`, yet `simulate` raises — `max()` on the
empty level dictionary — and produces no result dict at all, so no
"unknown" value is observable. -/
theorem simulate_fails_on_gateless_netlist :
    levelNetlist nlUndriven = some nlUndriven ∧ simulate nlUndriven [("a", 1)] = none := by
  exact ⟨by decide, by decide⟩

/-- C2 counterexample: on `dupText` — two gate instantiations both
naming output `x` — `parse_netlist_text` does not fail: it returns a
netlist whose gate sequence contains both gates, with the duplicate
output, and no duplicate-driver error exists anywhere in the parser. -/
theorem parse_accepts_duplicate_drivers :
    (parseNetlistText dupText).gates.length = 2 ∧
      (parseNetlistText dupText).gates.map (fun g => g.output) = ["x", "x"] ∧
      ¬ ((parseNetlistText dupText).gates.map (fun g => g.output)).Nodup := by
  refine ⟨by decide, by decide, by decide⟩

/-- C2 (corrected): parsing a text with two gates claiming the same
output signal silently keeps both gates, in declaration order, with no
error of any kind. -/
theorem parse_keeps_both_duplicate_driver_gates :
    parseNetlistText dupText =
      { inputs := ["a"], outputs := [], wires := [],
        gates := [{ gtype := "nand", name := some "G1", output := "x", inputs := ["a"] },
                  { gtype := "nand", name := some "G2", output := "x", inputs := ["a"] }] } := by
  decide

/-- C6 (confirmed). A statement that matches a gate-instantiation
shape but whose port list holds no identifiers contributes no gate —
and the parsed netlist's gate sequence is exactly the concatenation of
the per-statement contributions, so the statement leaves no trace in
it: it is silently dropped, producing neither a zero-input gate nor an
error. -/
theorem empty_port_gate_stmt_dropped (text st : List Char)
    (hmem : st ∈ statementsOf (removeComments text))
    (hempty : gateStmtEmptyPortsB st = true) :
    stmtGates st = [] ∧
      (parseNetlistText text).gates = (statementsOf (removeComments text)).flatMap stmtGates := by
  constructor
  · unfold stmtGates classifyStmt
    by_cases hmod : startsWithModuleKw st
    · rw [if_pos hmod]
    · rw [if_neg hmod]
      cases hd : matchDecl st with
      | some kd =>
        obtain ⟨kind, rest⟩ := kd
        rfl
      | none =>
        cases hng : matchNamedGate st with
        | some tni =>
          obtain ⟨t, n, inner⟩ := tni
          unfold gateStmtEmptyPortsB at hempty
          rw [hng] at hempty
          have hids : findIdentifiers inner = [] := by simpa using hempty
          simp [hids]
        | none =>
          cases hag : matchAnonGate st with
          | some ti =>
            obtain ⟨t, inner⟩ := ti
            unfold gateStmtEmptyPortsB at hempty
            rw [hng, hag] at hempty
            have hids : findIdentifiers inner = [] := by simpa using hempty
            simp [hids]
          | none => rfl
  · rfl

/-- Witness for C6: `nand G1 ()` inside a small source text
contributes nothing. -/
theorem empty_port_gate_stmt_dropped_witness :
    stmtGates "nand G1 ()".toList = [] ∧
      (parseNetlistText "input a; nand G1 (); nand G2 (y, a);".toList).gates =
        (statementsOf (removeComments "input a; nand G1 (); nand G2 (y, a);".toList)).flatMap
          stmtGates :=
  empty_port_gate_stmt_dropped "input a; nand G1 (); nand G2 (y, a);".toList
    "nand G1 ()".toList (by decide) (by decide)
